import Mathlib

/-!
Verification of the GoCafeNG job-board ingestion pipeline.

Shallow embedding of the Go source: strings are lists of characters
(`Str`), timestamps are a calendar structure (`GoTime`), the jobs table is
a list of rows, and effectful operations (database transaction, context
cancellation, injected query errors) are modelled by explicit state
passing plus fault oracles indexed by loop iteration.
-/

/-- Strings from the Go source are modelled as lists of characters. -/
abbrev Str := List Char

/-- Model of Go `strings.ToLower` (ASCII case folding). -/
def lowerStr (s : Str) : Str := s.map Char.toLower

/-- Model of Go `strings.HasPrefix`. -/
def strStartsWith (s pat : Str) : Bool :=
  match pat, s with
  | [], _ => true
  | _ :: _, [] => false
  | p :: ps, c :: cs => p == c && strStartsWith cs ps

/-- Model of Go `strings.HasSuffix`. -/
def strEndsWith (s pat : Str) : Bool :=
  strStartsWith s.reverse pat.reverse

/-- Model of Go `strings.Contains`: `pat` occurs somewhere in `s`. -/
def strContains (s pat : Str) : Bool :=
  match s with
  | [] => pat.isEmpty
  | _ :: rest => strStartsWith s pat || strContains rest pat

/-- Model of the fetcher helper `containsAny`: case-insensitive test that
`s` contains one of the substrings. -/
def containsAny (s : Str) (subs : List Str) : Bool :=
  subs.any (fun sub => strContains (lowerStr s) (lowerStr sub))

/-- Model of Go `time.Time` restricted to the fields the program
inspects: calendar year, month, day and second-of-day.  Comparison is
lexicographic; `AddDate(0,1,0)` advances the month with year carry. -/
structure GoTime where
  year : Int
  month : Int
  day : Int
  sec : Int
deriving DecidableEq

/-- The Go zero time value (`time.Time{}.IsZero()` compares to this). -/
def GoTime.zero : GoTime := ⟨1, 1, 1, 0⟩

/-- Model of `time.Time.Before`: strict lexicographic comparison. -/
def GoTime.before (a b : GoTime) : Bool :=
  if a.year ≠ b.year then a.year < b.year
  else if a.month ≠ b.month then a.month < b.month
  else if a.day ≠ b.day then a.day < b.day
  else a.sec < b.sec

/-- Model of `time.Time.Add` for sub-day durations (seconds). -/
def GoTime.addSeconds (t : GoTime) (n : Int) : GoTime :=
  { t with sec := t.sec + n }

/-- Model of `time.Time.AddDate(0, 1, 0)`: one calendar month later
(year carry; day-of-month normalisation is irrelevant to the claims). -/
def GoTime.addOneMonth (t : GoTime) : GoTime :=
  if t.month = 12 then { t with year := t.year + 1, month := 1 }
  else { t with month := t.month + 1 }

/-- Canonical job record, mirroring `models.Job`. -/
structure Job where
  id : Str
  jobId : Str
  title : Str
  company : Str
  companyURL : Str
  companyLogo : Str
  country : Str
  state : Str
  description : Str
  url : Str
  source : Str
  isRemote : Bool
  employmentType : Str
  postedAt : GoTime
  dateGotten : GoTime
  expDate : GoTime
  salary : Str
  location : Str
  jobType : Str
  rawData : Str
deriving DecidableEq

/-- The blocked-company deny list from `IsBlockedCompany`. -/
def blockedCompanies : List Str := ["canonical".data, "crossover".data]

/-- Model of `IsBlockedCompany`: case-insensitive substring match of the
company name against the deny list. -/
def IsBlockedCompany (companyName : Str) : Bool :=
  blockedCompanies.any (fun blocked => strContains (lowerStr companyName) blocked)

/-- The `goPrefixes` pattern list from `IsGoRelatedJob`. -/
def goStartPats : List Str :=
  [" go ".data, " go,".data, " go.".data, " go:".data, " go;".data,
   " go-".data, " go/".data, " go)".data, " go]".data, " go\x7d".data,
   "(go ".data, "[go ".data, "\x7bgo ".data]

/-- The `goSuffixes` pattern list from `IsGoRelatedJob`. -/
def goEndPats : List Str :=
  [" go".data, ",go ".data, ".go ".data, ":go ".data, ";go ".data,
   "-go ".data, "/go ".data, "(go)".data, "[go]".data, "\x7bgo\x7d".data]

/-- The `goStandalone` pattern list from `IsGoRelatedJob`. -/
def goAlonePats : List Str :=
  ["(go)".data, "[go]".data, "\x7bgo\x7d".data, " go ".data]

/-- Model of `IsGoRelatedJob`: scans the lower-cased title and
description for the pattern lists, then the prefix/suffix special cases,
then a bare `golang` substring. -/
def IsGoRelatedJob (job : Job) : Bool :=
  let title := lowerStr job.title
  let description := lowerStr job.description
  goStartPats.any (fun pat => strContains title pat || strContains description pat) ||
  goEndPats.any (fun pat => strContains title pat || strContains description pat) ||
  goAlonePats.any (fun pat => strContains title pat || strContains description pat) ||
  (strStartsWith title ("go ".data) || strEndsWith title (" go".data)) ||
  (strContains title ("golang".data) || strContains description ("golang".data))

/-- One stored row of the `jobs` table, mirroring the columns written by
`SaveJobsToDB` plus the schema defaults `created_at` / `updated_at`. -/
structure JobRow where
  id : Str
  jobId : Str
  title : Str
  company : Str
  companyURL : Str
  companyLogo : Str
  location : Str
  description : Str
  url : Str
  salary : Str
  postedAt : GoTime
  jobType : Str
  isRemote : Bool
  source : Str
  rawData : Str
  dateGotten : GoTime
  country : Str
  state : Str
  createdAt : GoTime
  updatedAt : GoTime
deriving DecidableEq

/-- The committed `jobs` table. -/
abbrev JobsTable := List JobRow

/-- Model of `IsDuplicateJob`: a committed row with the same
case-insensitive title and company, posted in the same calendar
year and month (the SQL `EXTRACT` comparisons). -/
def IsDuplicateJob (table : JobsTable) (job : Job) : Bool :=
  table.any (fun r =>
    decide (lowerStr r.title = lowerStr job.title) &&
    decide (lowerStr r.company = lowerStr job.company) &&
    decide (r.postedAt.year = job.postedAt.year) &&
    decide (r.postedAt.month = job.postedAt.month))

/-- Test fixture: a job record with the given title and description and
all other fields empty. -/
def fixtureJob (t d : Str) : Job :=
  { id := [], jobId := [], title := t, company := [], companyURL := [],
    companyLogo := [], country := [], state := [], description := d,
    url := [], source := [], isRemote := false, employmentType := [],
    postedAt := GoTime.zero, dateGotten := GoTime.zero,
    expDate := GoTime.zero, salary := [], location := [], jobType := [],
    rawData := [] }


/-- The configuration fields `SaveJobsToDB` consults (`config.Config`). -/
structure GoConfig where
  mode : Str
  brandFetchAPIKey : Str
deriving DecidableEq

/-- Errors returned by the modelled `SaveJobsToDB`. -/
inductive SaveErr where
  | beginFailed
  | stmtFailed
  | ctxCanceled
  | execFailed
  | commitFailed
deriving DecidableEq

/-- Environment of one `SaveJobsToDB` call: the loaded configuration (or
`none` when `LoadConfig` failed), the `FetchCompanyLogo` collaborator,
the wall clock used for `CURRENT_TIMESTAMP`, the context-cancellation
observations and injected database faults, all indexed by the input
record's position in the batch. -/
structure SaveEnv where
  cfg : Option GoConfig
  fetchLogo : Str → Str
  now : GoTime
  ctxDone : Nat → Bool
  dupCheckErr : Nat → Bool
  execErr : Nat → Bool
  beginErr : Bool
  stmtErr : Bool
  commitErr : Bool

/-- The logo-enrichment step of `SaveJobsToDB`: when a config is loaded,
the mode is not `dev`, a BrandFetch key is present, the job has no logo
and has a company URL, fetch a logo. -/
def enrichLogo (env : SaveEnv) (job : Job) : Job :=
  match env.cfg with
  | none => job
  | some cfg =>
    if cfg.mode ≠ "dev".data ∧ cfg.brandFetchAPIKey ≠ [] ∧
        job.companyLogo = [] ∧ job.companyURL ≠ [] then
      { job with companyLogo := env.fetchLogo job.companyURL }
    else job

/-- A freshly inserted row: the 18 `VALUES` columns plus the schema
defaults `created_at = updated_at = CURRENT_TIMESTAMP`. -/
def rowOfJob (now : GoTime) (job : Job) : JobRow :=
  { id := job.id, jobId := job.jobId, title := job.title,
    company := job.company, companyURL := job.companyURL,
    companyLogo := job.companyLogo, location := job.location,
    description := job.description, url := job.url, salary := job.salary,
    postedAt := job.postedAt, jobType := job.jobType,
    isRemote := job.isRemote, source := job.source, rawData := job.rawData,
    dateGotten := job.dateGotten, country := job.country,
    state := job.state, createdAt := now, updatedAt := now }

/-- The `ON CONFLICT (id) DO UPDATE SET` column list: every mutable
column is overwritten and `updated_at` is bumped; `id`, `job_id`,
`company_url`, `date_gotten`, `country`, `state` and `created_at` keep
their stored values. -/
def updateRowOnConflict (now : GoTime) (job : Job) (r : JobRow) : JobRow :=
  { r with
    title := job.title, company := job.company,
    location := job.location, description := job.description,
    url := job.url, salary := job.salary, postedAt := job.postedAt,
    jobType := job.jobType, isRemote := job.isRemote,
    source := job.source, rawData := job.rawData,
    companyLogo := job.companyLogo, updatedAt := now }

/-- The prepared upsert statement: insert keyed on `id`, or update the
conflicting row (`id` is the primary key, so at most one row can
conflict and replacing the first match is exact). -/
def upsertJob (now : GoTime) : JobsTable → Job → JobsTable
  | [], job => [rowOfJob now job]
  | r :: rest, job =>
    if r.id = job.id then updateRowOnConflict now job r :: rest
    else r :: upsertJob now rest job

/-- Outcome of one iteration of the `SaveJobsToDB` record loop. -/
inductive RecOutcome where
  | abortCtx
  | skipBlocked
  | skipNonGo
  | skipDup
  | abortExec
  | upserted (enriched : Job)
deriving DecidableEq

/-- One iteration of the `SaveJobsToDB` loop for the record at batch
position `i`: context check, blocklist, relevance, duplicate check
against the committed table (fail-open on a query error), enrichment,
then the upsert.  `committed` is the snapshot the duplicate check reads
(the query runs on the pool, not inside the transaction). -/
def processRecord (env : SaveEnv) (committed : JobsTable) (i : Nat) (job : Job) :
    RecOutcome :=
  if env.ctxDone i then .abortCtx
  else if IsBlockedCompany job.company then .skipBlocked
  else if ¬IsGoRelatedJob job then .skipNonGo
  else
    let isDup := if env.dupCheckErr i then false else IsDuplicateJob committed job
    if isDup then .skipDup
    else if env.execErr i then .abortExec
    else .upserted (enrichLogo env job)

/-- The `SaveJobsToDB` record loop: `tx` is the transaction-local view of
the table (`committed` plus the batch's pending upserts), `count` the
number of rows upserted so far.  An abort rolls back, i.e. returns the
untouched `committed` table. -/
def saveLoop (env : SaveEnv) (committed : JobsTable) :
    Nat → List Job → JobsTable → Nat → Nat × Option SaveErr × JobsTable
  | _, [], tx, count =>
    if env.commitErr then (count, some .commitFailed, committed)
    else (count, none, tx)
  | i, job :: rest, tx, count =>
    match processRecord env committed i job with
    | .abortCtx => (count, some .ctxCanceled, committed)
    | .skipBlocked => saveLoop env committed (i + 1) rest tx count
    | .skipNonGo => saveLoop env committed (i + 1) rest tx count
    | .skipDup => saveLoop env committed (i + 1) rest tx count
    | .abortExec => (count, some .execFailed, committed)
    | .upserted enriched =>
      saveLoop env committed (i + 1) rest (upsertJob env.now tx enriched) (count + 1)

/-- Model of `SaveJobsToDB`: returns the upserted count, the error (if
any) and the committed table after the call. -/
def SaveJobsToDB (env : SaveEnv) (committed : JobsTable) (jobs : List Job) :
    Nat × Option SaveErr × JobsTable :=
  if env.beginErr then (0, some .beginFailed, committed)
  else if env.stmtErr then (0, some .stmtFailed, committed)
  else saveLoop env committed 0 jobs committed 0

/-- A word boundary in the sense of the relevance policy: whitespace, or
any non-alphanumeric character (punctuation and symbols). -/
def isWordBoundary (c : Char) : Bool := c.isWhitespace || !c.isAlphanum

/-- Does the string start with the letters `go`? -/
def startsGo (s : Str) : Bool :=
  match s with
  | 'g' :: 'o' :: _ => true
  | _ => false

/-- Does the string start with `go` followed by a word boundary or the
string end? -/
def startsGoClosed (s : Str) : Bool :=
  match s with
  | 'g' :: 'o' :: [] => true
  | 'g' :: 'o' :: c :: _ => isWordBoundary c
  | _ => false

/-- Scan for an occurrence of `go` whose preceding position is a word
boundary (or the string start); `prevOk` records whether the position
just before the current suffix qualifies. -/
def leftGoScan (prevOk : Bool) (s : Str) : Bool :=
  match s with
  | [] => false
  | c :: rest => (prevOk && startsGo (c :: rest)) || leftGoScan (isWordBoundary c) rest

/-- The string has an occurrence of `go` preceded by a word boundary or
the string start. -/
def hasLeftBoundedGo (s : Str) : Bool := leftGoScan true s

/-- Scan for an occurrence of `go` bounded on both sides by a word
boundary or a string edge. -/
def bothGoScan (prevOk : Bool) (s : Str) : Bool :=
  match s with
  | [] => false
  | c :: rest => (prevOk && startsGoClosed (c :: rest)) || bothGoScan (isWordBoundary c) rest

/-- The string has an occurrence of `go` bounded on both sides by
whitespace, punctuation or a string edge — the spec's notion of a
standalone `go` token. -/
def hasBoundedGo (s : Str) : Bool := bothGoScan true s


/-- Scheduler run-state row, mirroring `db.JobScheduleInfo`. -/
structure JobScheduleInfo where
  apiName : Str
  lastRunTime : GoTime
  nextRunTime : GoTime
  intervalHours : Int
  status : Str
  lastRunCount : Int
  lastErrorMsg : Str
deriving DecidableEq

/-- The `job_schedule_info` table, keyed by `api_name`. -/
abbrev ScheduleTable := List JobScheduleInfo

/-- Model of `UpdatesJobScheduleInfo`: upsert keyed on `api_name`
(the primary key, so at most one row conflicts and replacing the first
match is exact). -/
def UpdatesJobScheduleInfo : ScheduleTable → JobScheduleInfo → ScheduleTable
  | [], info => [info]
  | r :: rest, info =>
    if r.apiName = info.apiName then info :: rest
    else r :: UpdatesJobScheduleInfo rest info

/-- Model of `GetJobScheduleInfo`: the row for one API name. -/
def GetJobScheduleInfo (table : ScheduleTable) (apiName : Str) :
    Option JobScheduleInfo :=
  table.find? (fun r => decide (r.apiName = apiName))

/-- Model of `LogJobRun`: record a run outcome and schedule the next run
a full interval (in hours) after the current time, whatever the
status. -/
def LogJobRun (table : ScheduleTable) (apiName : Str) (status : Str)
    (jobCount : Int) (errorMsg : Str) (intervalHours : Int) (now : GoTime) :
    ScheduleTable :=
  UpdatesJobScheduleInfo table
    { apiName := apiName, lastRunTime := now,
      nextRunTime := now.addSeconds (intervalHours * 3600),
      intervalHours := intervalHours, status := status,
      lastRunCount := jobCount, lastErrorMsg := errorMsg }

/-- The next-trigger computation performed per source inside
`StartJobScheduler`: honour a persisted non-zero future next-run time,
push an overdue one to a minute after startup, and give a source with no
(or a zero) persisted time its first run an hour after startup. -/
def startSchedulerNextRun (now : GoTime) (info : Option JobScheduleInfo) : GoTime :=
  match info with
  | some i =>
    if i.nextRunTime ≠ GoTime.zero then
      if i.nextRunTime.before now then now.addSeconds 60 else i.nextRunTime
    else now.addSeconds 3600
  | none => now.addSeconds 3600

/-- Outcome of one `FetchAndSaveX` cycle, as written by `LogJobRun`:
either the fetch failed, or the save ran and possibly returned an
error. -/
def fetchAndSaveRun (env : SaveEnv) (sched : ScheduleTable) (committed : JobsTable)
    (apiName : Str) (intervalHours : Int)
    (fetchResult : Except Str (List Job)) : ScheduleTable × JobsTable :=
  match fetchResult with
  | .error e => (LogJobRun sched apiName ("Failed".data) 0 e intervalHours env.now, committed)
  | .ok jobs =>
    match SaveJobsToDB env committed jobs with
    | (count, some _, table) =>
      (LogJobRun sched apiName ("Partial Success".data) count [] intervalHours env.now, table)
    | (count, none, table) =>
      (LogJobRun sched apiName ("Success".data) count [] intervalHours env.now, table)

/-- Environment of an adapter call: the stream of `uuid.New()` results
(two independent streams, since one adapter draws two IDs per record),
the fetch time, the raw response body stored verbatim in `raw_data`, and
the `time.Parse` collaborator (layout, value). -/
structure AdapterEnv where
  uuidA : Nat → Str
  uuidB : Nat → Str
  now : GoTime
  rawBody : Str
  parseTime : Str → Str → Option GoTime

/-- The `time.Parse` layouts the adapters use. -/
def layoutDateTime : Str := "2006-01-02T15:04:05".data

/-- The RFC 3339 layout. -/
def layoutRFC3339 : Str := "2006-01-02T15:04:05Z07:00".data

/-- The date-only layout used by the Apify LinkedIn adapter. -/
def layoutDate : Str := "2006-01-02".data

/-- The remote-work token set shared by the adapters. -/
def remoteTokens : List Str := ["remote".data, "work from home".data, "wfh".data]

/-- One element of `JSEARCHResponse.Data` (the fields the adapter reads). -/
structure JSearchItem where
  jobTitle : Str
  employerName : Str
  companyURL : Str
  jobLocation : Str
  jobDescription : Str
  jobApplyLink : Str
  jobSalary : Str
  jobPostedAt : GoTime
  jobType : Str
  jobIsRemote : Bool
deriving DecidableEq

/-- The record-construction loop of `FetchJSearchJobs`. -/
def convertJSearchFrom (env : AdapterEnv) (i : Nat) : List JSearchItem → List Job
  | [] => []
  | item :: rest =>
    { id := env.uuidA i, jobId := env.uuidB i, title := item.jobTitle,
      company := item.employerName, companyURL := item.companyURL,
      companyLogo := [], country := [], state := [],
      description := item.jobDescription, url := item.jobApplyLink,
      source := "jsearch".data, isRemote := item.jobIsRemote,
      employmentType := [], postedAt := item.jobPostedAt,
      dateGotten := env.now, expDate := env.now.addOneMonth,
      salary := item.jobSalary, location := item.jobLocation,
      jobType := item.jobType, rawData := env.rawBody } ::
    convertJSearchFrom env (i + 1) rest

/-- Model of `FetchJSearchJobs` after the HTTP exchange: the input is the
outcome of unmarshalling the body into `JSEARCHResponse`. -/
def FetchJSearchJobs (env : AdapterEnv) (parsed : Option (List JSearchItem)) :
    Except Str (List Job) :=
  match parsed with
  | none => .error ("json unmarshal error".data)
  | some items => .ok (convertJSearchFrom env 0 items)

/-- One element of the loosely-typed LinkedIn array shape
(`map[string]interface{}`): `some` means the key is present with a value
of the asserted type. -/
structure LILooseItem where
  title : Option Str
  id : Option Str
  organization : Option Str
  organizationURL : Option Str
  url : Option Str
  description : Option Str
  datePosted : Option Str
  locationsDerived : Option (List (Option Str))
deriving DecidableEq

/-- One element of `LinkedInResponse.Data` (the fields the adapter reads). -/
structure LIItem where
  id : Str
  title : Str
  organization : Str
  organizationURL : Str
  url : Str
  datePosted : Str
  employmentType : List Str
  locationsDerived : List Str
  countriesDerived : List Str
  remoteDerived : Bool
  linkedinOrgDescription : Str
deriving DecidableEq

/-- The response-body shapes `FetchLinkedInJobs` distinguishes: a bare
JSON array of objects, an object (the `{"data": [...]}` envelope, whose
`data` key may be absent/null), a JSON string wrapping escaped JSON, or
anything else. -/
inductive LIBody where
  | arrayOf (items : List LILooseItem)
  | envelope (data : Option (List LIItem))
  | quoted (inner : LIBody)
  | malformed

/-- Unmarshalling the body into `[]map[string]interface{}`: succeeds
exactly on a bare array of objects. -/
def parseLILooseArray : LIBody → Option (List LILooseItem)
  | .arrayOf items => some items
  | _ => none

/-- Unmarshalling the body into the typed `LinkedInResponse` struct:
succeeds exactly on an object; `data` may be absent (`none`). -/
def parseLIEnvelope : LIBody → Option (Option (List LIItem))
  | .envelope d => some d
  | _ => none

/-- Does the raw body start with a `"` (i.e. is it a JSON string)? -/
def liBodyIsJSONString : LIBody → Bool
  | .quoted _ => true
  | _ => false

/-- Unmarshalling the body into a Go `string`: succeeds exactly on a
JSON string, yielding the embedded document. -/
def parseLIString : LIBody → Option LIBody
  | .quoted inner => some inner
  | _ => none

/-- The location fallback of the loose LinkedIn shape: the first element
of `locations_derived` when it exists and is a string, else `Nigeria`. -/
def liLooseLocation (item : LILooseItem) : Str :=
  match item.locationsDerived with
  | some (some loc :: _) => loc
  | _ => "Nigeria".data

/-- The record-construction loop for the loose LinkedIn array shape. -/
def convertLILooseFrom (env : AdapterEnv) (i : Nat) : List LILooseItem → List Job
  | [] => []
  | item :: rest =>
    { id := env.uuidA i, jobId := item.id.getD [],
      title := item.title.getD [], company := item.organization.getD [],
      companyURL := item.organizationURL.getD [], companyLogo := [],
      country := [], state := [], description := item.description.getD [],
      url := item.url.getD [], source := "linkedin".data,
      isRemote := false, employmentType := [],
      postedAt :=
        match item.datePosted with
        | some s => (env.parseTime layoutDateTime s).getD env.now
        | none => env.now,
      dateGotten := env.now, expDate := env.now.addOneMonth,
      salary := [], location := liLooseLocation item, jobType := [],
      rawData := env.rawBody } ::
    convertLILooseFrom env (i + 1) rest

/-- The record-construction loop for the typed LinkedIn envelope shape. -/
def convertLIFrom (env : AdapterEnv) (i : Nat) : List LIItem → List Job
  | [] => []
  | item :: rest =>
    { id := env.uuidA i, jobId := item.id, title := item.title,
      company := item.organization, companyURL := item.organizationURL,
      companyLogo := [], country := [], state := [],
      description := item.linkedinOrgDescription, url := item.url,
      source := "linkedin".data, isRemote := item.remoteDerived,
      employmentType := [],
      postedAt :=
        match env.parseTime layoutDateTime item.datePosted with
        | some t => t
        | none => (env.parseTime layoutRFC3339 item.datePosted).getD env.now,
      dateGotten := env.now, expDate := env.now.addOneMonth, salary := [],
      location :=
        match item.locationsDerived with
        | loc :: _ => loc
        | [] =>
          match item.countriesDerived with
          | c :: _ => c
          | [] => "Nigeria".data,
      jobType := List.intercalate (", ".data) item.employmentType,
      rawData := env.rawBody } ::
    convertLIFrom env (i + 1) rest

/-- The `Data`-emptiness check and conversion shared by the envelope and
string-wrapped paths of `FetchLinkedInJobs`. -/
def liCheckData (env : AdapterEnv) (d : Option (List LIItem)) :
    Except Str (List Job) :=
  match d with
  | none => .error ("no data returned from LinkedIn API".data)
  | some items =>
    if items.length = 0 then .error ("no data returned from LinkedIn API".data)
    else .ok (convertLIFrom env 0 items)

/-- The fallback path of `FetchLinkedInJobs` once the bare-array attempt
has not produced records: typed envelope, then string-wrapped JSON. -/
def liEnvelopeAttempt (env : AdapterEnv) (body : LIBody) :
    Except Str (List Job) :=
  match parseLIEnvelope body with
  | some d => liCheckData env d
  | none =>
    if liBodyIsJSONString body then
      match parseLIString body with
      | some inner =>
        match parseLIEnvelope inner with
        | some d => liCheckData env d
        | none => .error ("failed to parse linkedin response from raw JSON string".data)
      | none => .error ("failed to unmarshal linkedin response as JSON string".data)
    else .error ("json unmarshal error".data)

/-- Model of `FetchLinkedInJobs` after the HTTP exchange: the bare-array
shape is attempted first and used only when it parses to at least one
item; otherwise the envelope and string-wrapped shapes follow. -/
def FetchLinkedInJobs (env : AdapterEnv) (body : LIBody) :
    Except Str (List Job) :=
  match parseLILooseArray body with
  | some items =>
    if 0 < items.length then .ok (convertLILooseFrom env 0 items)
    else liEnvelopeAttempt env body
  | none => liEnvelopeAttempt env body

/-- One element of `MiscresIndeedResponse` (the fields the adapter
reads). -/
structure IndeedItem where
  id : Str
  positionName : Str
  company : Str
  location : Str
  description : Str
  url : Str
  salary : Str
  postingDateParsed : Str
  scrapedAt : Str
  jobType : List Str
deriving DecidableEq

/-- The zero value of an Indeed dataset item (what `encoding/json`
produces for an object none of whose keys match the struct). -/
def defaultIndeedItem : IndeedItem :=
  { id := [], positionName := [], company := [], location := [],
    description := [], url := [], salary := [], postingDateParsed := [],
    scrapedAt := [], jobType := [] }

/-- The response-body shapes relevant to the Apify-backed adapters: a
dataset (array of item objects), an error envelope
`[{"error": msg, ...}]`, or anything else. -/
inductive IndeedBody where
  | dataset (items : List IndeedItem)
  | errEnvelope (msg : Str)
  | malformed

/-- The error-envelope probe of `FetchIndeedJobs`: unmarshal into
`[]map[string]interface{}` and look for a string under `error` in the
first element.  Dataset items carry no `error` key. -/
def parseIndeedErrEnvelope : IndeedBody → Option Str
  | .errEnvelope m => some m
  | _ => none

/-- Unmarshalling the body into `MiscresIndeedResponse`.  Since
`encoding/json` ignores unknown object keys, an error envelope decodes
successfully as a single zero-valued item. -/
def parseIndeedItems : IndeedBody → Option (List IndeedItem)
  | .dataset items => some items
  | .errEnvelope _ => some [defaultIndeedItem]
  | .malformed => none

/-- The record-construction loop of `FetchIndeedJobs`. -/
def convertIndeedFrom (env : AdapterEnv) (i : Nat) : List IndeedItem → List Job
  | [] => []
  | item :: rest =>
    { id := env.uuidA i, jobId := item.id, title := item.positionName,
      company := item.company, companyURL := [], companyLogo := [],
      country := [], state := [], description := item.description,
      url := item.url, source := "apify indeed".data,
      isRemote := containsAny item.description remoteTokens,
      employmentType := [],
      postedAt :=
        match env.parseTime layoutRFC3339 item.postingDateParsed with
        | some t => t
        | none => (env.parseTime layoutRFC3339 item.scrapedAt).getD env.now,
      dateGotten := env.now, expDate := env.now.addOneMonth,
      salary := item.salary, location := item.location,
      jobType :=
        match item.jobType with
        | t :: _ => t
        | [] => [],
      rawData := env.rawBody } ::
    convertIndeedFrom env (i + 1) rest

/-- Model of `FetchIndeedJobs` after the HTTP exchange: an error
envelope or an empty dataset yields an empty slice with no error. -/
def FetchIndeedJobs (env : AdapterEnv) (body : IndeedBody) :
    Except Str (List Job) :=
  match parseIndeedErrEnvelope body with
  | some _ => .ok []
  | none =>
    match parseIndeedItems body with
    | none => .error ("json unmarshal error".data)
    | some items =>
      if items.length = 0 then .ok []
      else .ok (convertIndeedFrom env 0 items)

/-- One element of `ApifyLinkedInResponse` (the fields the adapter
reads). -/
structure ApifyLIItem where
  id : Str
  title : Str
  companyName : Str
  companyWebsite : Str
  companyLinkedinUrl : Str
  location : Str
  descriptionText : Str
  link : Str
  salaryInfo : List Str
  postedAt : Str
  employmentType : Str
deriving DecidableEq

/-- The zero value of an Apify LinkedIn item. -/
def defaultApifyLIItem : ApifyLIItem :=
  { id := [], title := [], companyName := [], companyWebsite := [],
    companyLinkedinUrl := [], location := [], descriptionText := [],
    link := [], salaryInfo := [], postedAt := [], employmentType := [] }

/-- The response-body shapes for the Apify LinkedIn adapter. -/
inductive ApifyLIBody where
  | dataset (items : List ApifyLIItem)
  | errEnvelope (msg : Str)
  | malformed

/-- Unmarshalling the body into `ApifyLinkedInResponse`; as for Indeed,
an error envelope decodes as one zero-valued item. -/
def parseApifyLIItems : ApifyLIBody → Option (List ApifyLIItem)
  | .dataset items => some items
  | .errEnvelope _ => some [defaultApifyLIItem]
  | .malformed => none

/-- The error-envelope probe of `FetchApifyLinkedInJobs`. -/
def parseApifyLIErrEnvelope : ApifyLIBody → Option Str
  | .errEnvelope m => some m
  | _ => none

/-- The record-construction loop of `FetchApifyLinkedInJobs`. -/
def convertApifyLIFrom (env : AdapterEnv) (i : Nat) : List ApifyLIItem → List Job
  | [] => []
  | item :: rest =>
    { id := env.uuidA i, jobId := item.id, title := item.title,
      company := item.companyName,
      companyURL :=
        if item.companyWebsite = [] ∧ item.companyLinkedinUrl ≠ [] then
          item.companyLinkedinUrl
        else item.companyWebsite,
      companyLogo := [], country := [], state := [],
      description := item.descriptionText, url := item.link,
      source := "apify linkedin".data,
      isRemote := containsAny item.descriptionText remoteTokens,
      employmentType := [],
      postedAt := (env.parseTime layoutDate item.postedAt).getD env.now,
      dateGotten := env.now, expDate := env.now.addOneMonth,
      salary :=
        match item.salaryInfo with
        | s :: _ => s
        | [] => [],
      location := item.location, jobType := item.employmentType,
      rawData := env.rawBody } ::
    convertApifyLIFrom env (i + 1) rest

/-- Model of `FetchApifyLinkedInJobs` after the HTTP exchange: a parse
failure reports the vendor's error message when an error envelope is
recognisable, and a dataset of zero items is an error, never an empty
slice. -/
def FetchApifyLinkedInJobs (env : AdapterEnv) (body : ApifyLIBody) :
    Except Str (List Job) :=
  match parseApifyLIItems body with
  | none =>
    match parseApifyLIErrEnvelope body with
    | some m => .error (("Apify LinkedIn API error: ".data) ++ m)
    | none => .error ("json unmarshal error".data)
  | some items =>
    if items.length = 0 then .error ("no data returned from Apify LinkedIn API".data)
    else .ok (convertApifyLIFrom env 0 items)

/-- The `validSources` membership test of the `SyncJobs` handler. -/
def isValidSyncSource (s : Str) : Bool :=
  s == "jsearch".data || s == "indeed".data ||
  s == "linkedin".data || s == "apify_linkedin".data

/-- The asynchronous fetch the `SyncJobs` handler can start. -/
inductive SyncAction where
  | jsearch
  | indeed
  | linkedin
  | apifyLinkedin
deriving DecidableEq

/-- The observable outcome of one `SyncJobs` request: HTTP status, the
`success` field of the JSON body (absent on the error reply), and the
fetches started by the spawned goroutine. -/
structure SyncResult where
  status : Nat
  success : Option Bool
  started : List SyncAction
deriving DecidableEq

/-- Model of the `SyncJobs` handler: validate the `source` query
parameter, then start the matching fetch (none matches an empty
source). -/
def SyncJobs (source : Str) : SyncResult :=
  if source ≠ [] ∧ ¬(isValidSyncSource source = true) then
    { status := 400, success := none, started := [] }
  else
    { status := 200, success := some true,
      started :=
        (if source = "jsearch".data then [SyncAction.jsearch] else []) ++
        (if source = "indeed".data then [SyncAction.indeed] else []) ++
        (if source = "linkedin".data then [SyncAction.linkedin] else []) ++
        (if source = "apify_linkedin".data then [SyncAction.apifyLinkedin] else []) }

lemma GetJobScheduleInfo_after_update (table : ScheduleTable)
    (info : JobScheduleInfo) (a : Str) (ha : info.apiName = a) :
    GetJobScheduleInfo (UpdatesJobScheduleInfo table info) a = some info := by
  subst ha
  induction table with
  | nil => simp [UpdatesJobScheduleInfo, GetJobScheduleInfo]
  | cons r rest ih =>
    by_cases h : r.apiName = info.apiName
    · simp [UpdatesJobScheduleInfo, GetJobScheduleInfo, h]
    · simp only [UpdatesJobScheduleInfo, if_neg h]
      simpa [GetJobScheduleInfo, h] using ih

/-- C7: the `JobScheduleInfo` row written by `LogJobRun` always carries
`next_run_time = now + intervalHours` (the full configured interval),
whatever status string — `Success`, `Partial Success` or `Failed` — is
recorded, and every branch of a `FetchAndSaveX` cycle writes such a
row. -/
theorem LogJobRun_full_interval_any_status :
    (∀ (table : ScheduleTable) (apiName status errorMsg : Str)
       (jobCount intervalHours : Int) (now : GoTime),
       GetJobScheduleInfo
           (LogJobRun table apiName status jobCount errorMsg intervalHours now)
           apiName =
         some { apiName := apiName, lastRunTime := now,
                nextRunTime := now.addSeconds (intervalHours * 3600),
                intervalHours := intervalHours, status := status,
                lastRunCount := jobCount, lastErrorMsg := errorMsg }) ∧
    (∀ (env : SaveEnv) (sched : ScheduleTable) (committed : JobsTable)
       (apiName : Str) (intervalHours : Int)
       (fetchResult : Except Str (List Job)),
       (GetJobScheduleInfo
           (fetchAndSaveRun env sched committed apiName intervalHours fetchResult).1
           apiName).map (fun info => info.nextRunTime) =
         some (env.now.addSeconds (intervalHours * 3600))) := by
  constructor
  · intro table apiName status errorMsg jobCount intervalHours now
    exact GetJobScheduleInfo_after_update table _ _ rfl
  · intro env sched committed apiName intervalHours fetchResult
    cases fetchResult with
    | error e =>
      simp only [fetchAndSaveRun, LogJobRun]
      rw [GetJobScheduleInfo_after_update sched _ apiName rfl]
      rfl
    | ok jobs =>
      simp only [fetchAndSaveRun, LogJobRun]
      rcases h : SaveJobsToDB env committed jobs with ⟨count, err, table⟩
      cases err with
      | none =>
        rw [GetJobScheduleInfo_after_update sched _ apiName rfl]
        rfl
      | some e =>
        rw [GetJobScheduleInfo_after_update sched _ apiName rfl]
        rfl

/-- C9: the `SyncJobs` handler accepts an empty `source` with success
and starts nothing, starts exactly the matching fetch for each of the
four known sources, and rejects any other non-empty source with HTTP 400
before any fetch starts. -/
theorem SyncJobs_source_dispatch :
    SyncJobs [] = { status := 200, success := some true, started := [] } ∧
    SyncJobs ("jsearch".data) =
      { status := 200, success := some true, started := [SyncAction.jsearch] } ∧
    SyncJobs ("indeed".data) =
      { status := 200, success := some true, started := [SyncAction.indeed] } ∧
    SyncJobs ("linkedin".data) =
      { status := 200, success := some true, started := [SyncAction.linkedin] } ∧
    SyncJobs ("apify_linkedin".data) =
      { status := 200, success := some true, started := [SyncAction.apifyLinkedin] } ∧
    (∀ s : Str, s ≠ [] → isValidSyncSource s = false →
      SyncJobs s = { status := 400, success := none, started := [] }) := by
  refine ⟨by decide, by decide, by decide, by decide, by decide, ?_⟩
  intro s hs hv
  simp [SyncJobs, hs, hv]

theorem SyncJobs_source_dispatch_witness :
    (("bogus".data : Str) ≠ [] ∧ isValidSyncSource ("bogus".data) = false) ∧
    SyncJobs ("bogus".data) = { status := 400, success := none, started := [] } :=
  ⟨⟨by decide, by decide⟩,
    SyncJobs_source_dispatch.2.2.2.2.2 ("bogus".data) (by decide) (by decide)⟩

lemma GoTime.before_irrefl (a : GoTime) : a.before a = false := by
  simp [GoTime.before]

lemma GoTime.before_asymm (a b : GoTime) (h : a.before b = true) :
    b.before a = false := by
  unfold GoTime.before at h ⊢
  split_ifs at h ⊢ <;> simp_all <;> omega

lemma GoTime.ne_of_before (a b : GoTime) (h : a.before b = true) : a ≠ b := by
  intro hab
  rw [hab, GoTime.before_irrefl] at h
  exact Bool.false_ne_true h

lemma GoTime.addSeconds_ne_self (t : GoTime) (n : Int) (hn : n ≠ 0) :
    t.addSeconds n ≠ t := by
  intro h
  have := congrArg GoTime.sec h
  simp [GoTime.addSeconds] at this
  omega

/-- C6 counterexample: a persisted row whose non-zero `next_run_time`
equals the startup instant is honoured as-is, so the scheduler does
produce an immediate run, contrary to the claim's "never an immediate
run". -/
theorem startSchedulerNextRun_immediate_counterexample :
    startSchedulerNextRun ⟨2025, 6, 1, 0⟩
        (some { apiName := "JSearch".data, lastRunTime := GoTime.zero,
                nextRunTime := ⟨2025, 6, 1, 0⟩, intervalHours := 12,
                status := "Scheduled".data, lastRunCount := 0,
                lastErrorMsg := [] }) = ⟨2025, 6, 1, 0⟩ ∧
    (⟨2025, 6, 1, 0⟩ : GoTime) ≠ GoTime.zero := by
  constructor
  · rfl
  · decide

/-- C6 (amended): at scheduler startup the next trigger is the persisted
`next_run_time` itself when non-zero and in the future, one minute after
startup when in the past, and one hour after startup when no row exists
or its `next_run_time` is zero; neither damped schedule is immediate.
The only immediate run arises in the boundary case where the persisted
time equals the startup instant exactly, which is honoured as-is. -/
theorem startSchedulerNextRun_cases (now : GoTime) (info : Option JobScheduleInfo) :
    (∀ i, info = some i → i.nextRunTime ≠ GoTime.zero →
       now.before i.nextRunTime = true →
       startSchedulerNextRun now info = i.nextRunTime ∧
       startSchedulerNextRun now info ≠ now) ∧
    (∀ i, info = some i → i.nextRunTime ≠ GoTime.zero →
       i.nextRunTime.before now = true →
       startSchedulerNextRun now info = now.addSeconds 60 ∧
       startSchedulerNextRun now info ≠ now) ∧
    (∀ i, info = some i → i.nextRunTime = GoTime.zero →
       startSchedulerNextRun now info = now.addSeconds 3600 ∧
       startSchedulerNextRun now info ≠ now) ∧
    (info = none →
       startSchedulerNextRun now info = now.addSeconds 3600 ∧
       startSchedulerNextRun now info ≠ now) ∧
    (∀ i, info = some i → i.nextRunTime = now → now ≠ GoTime.zero →
       startSchedulerNextRun now info = now) := by
  refine ⟨?_, ?_, ?_, ?_, ?_⟩
  · intro i hi hz hf
    subst hi
    have hb : i.nextRunTime.before now = false := GoTime.before_asymm _ _ hf
    have heq : startSchedulerNextRun now (some i) = i.nextRunTime := by
      simp [startSchedulerNextRun, hz, hb]
    refine ⟨heq, ?_⟩
    rw [heq]
    exact fun h => GoTime.ne_of_before now i.nextRunTime hf h.symm
  · intro i hi hz hp
    subst hi
    have heq : startSchedulerNextRun now (some i) = now.addSeconds 60 := by
      simp [startSchedulerNextRun, hz, hp]
    refine ⟨heq, ?_⟩
    rw [heq]
    exact GoTime.addSeconds_ne_self now 60 (by decide)
  · intro i hi hz
    subst hi
    have heq : startSchedulerNextRun now (some i) = now.addSeconds 3600 := by
      simp [startSchedulerNextRun, hz]
    refine ⟨heq, ?_⟩
    rw [heq]
    exact GoTime.addSeconds_ne_self now 3600 (by decide)
  · intro hi
    subst hi
    refine ⟨rfl, GoTime.addSeconds_ne_self now 3600 (by decide)⟩
  · intro i hi hz hnz
    subst hi
    simp [startSchedulerNextRun, hz, hnz, GoTime.before_irrefl]

theorem startSchedulerNextRun_cases_witness :
    GoTime.before ⟨2025, 6, 1, 0⟩ ⟨2025, 6, 2, 0⟩ = true ∧
    startSchedulerNextRun ⟨2025, 6, 1, 0⟩
        (some { apiName := "JSearch".data, lastRunTime := GoTime.zero,
                nextRunTime := ⟨2025, 6, 2, 0⟩, intervalHours := 12,
                status := "Scheduled".data, lastRunCount := 0,
                lastErrorMsg := [] }) = ⟨2025, 6, 2, 0⟩ :=
  ⟨by decide,
    ((startSchedulerNextRun_cases ⟨2025, 6, 1, 0⟩ _).1 _ rfl (by decide) (by decide)).1⟩

lemma length_convertJSearchFrom (env : AdapterEnv) :
    ∀ (items : List JSearchItem) (i : Nat),
    (convertJSearchFrom env i items).length = items.length := by
  intro items
  induction items with
  | nil => intro i; rfl
  | cons item rest ih => intro i; simp [convertJSearchFrom, ih (i + 1)]

lemma length_convertLILooseFrom (env : AdapterEnv) :
    ∀ (items : List LILooseItem) (i : Nat),
    (convertLILooseFrom env i items).length = items.length := by
  intro items
  induction items with
  | nil => intro i; rfl
  | cons item rest ih => intro i; simp [convertLILooseFrom, ih (i + 1)]

lemma length_convertLIFrom (env : AdapterEnv) :
    ∀ (items : List LIItem) (i : Nat),
    (convertLIFrom env i items).length = items.length := by
  intro items
  induction items with
  | nil => intro i; rfl
  | cons item rest ih => intro i; simp [convertLIFrom, ih (i + 1)]

lemma length_convertIndeedFrom (env : AdapterEnv) :
    ∀ (items : List IndeedItem) (i : Nat),
    (convertIndeedFrom env i items).length = items.length := by
  intro items
  induction items with
  | nil => intro i; rfl
  | cons item rest ih => intro i; simp [convertIndeedFrom, ih (i + 1)]

lemma length_convertApifyLIFrom (env : AdapterEnv) :
    ∀ (items : List ApifyLIItem) (i : Nat),
    (convertApifyLIFrom env i items).length = items.length := by
  intro items
  induction items with
  | nil => intro i; rfl
  | cons item rest ih => intro i; simp [convertApifyLIFrom, ih (i + 1)]

/-- Test fixture: a concrete adapter environment. -/
def fixtureAdapterEnv : AdapterEnv :=
  { uuidA := fun _ => "uuid-a".data, uuidB := fun _ => "uuid-b".data,
    now := ⟨2025, 1, 15, 3600⟩, rawBody := "raw".data,
    parseTime := fun _ _ => none }

/-- C10: `FetchIndeedJobs` answers both a vendor error envelope and an
empty dataset with an empty slice and no error, while
`FetchApifyLinkedInJobs` errors whenever the response parses to an empty
array and never returns an empty slice without an error. -/
theorem adapters_empty_result_asymmetry :
    (∀ (env : AdapterEnv) (m : Str),
       FetchIndeedJobs env (IndeedBody.errEnvelope m) = Except.ok []) ∧
    (∀ env : AdapterEnv,
       FetchIndeedJobs env (IndeedBody.dataset []) = Except.ok []) ∧
    (∀ (env : AdapterEnv) (body : ApifyLIBody) (items : List ApifyLIItem),
       parseApifyLIItems body = some items → items.length = 0 →
       ∃ e, FetchApifyLinkedInJobs env body = Except.error e) ∧
    (∀ (env : AdapterEnv) (body : ApifyLIBody),
       FetchApifyLinkedInJobs env body ≠ Except.ok []) := by
  refine ⟨fun env m => rfl, fun env => rfl, ?_, ?_⟩
  · intro env body items hp hlen
    refine ⟨"no data returned from Apify LinkedIn API".data, ?_⟩
    simp [FetchApifyLinkedInJobs, hp, hlen]
  · intro env body h
    unfold FetchApifyLinkedInJobs at h
    rcases hp : parseApifyLIItems body with _ | items
    · rw [hp] at h
      rcases he : parseApifyLIErrEnvelope body with _ | m <;> simp [he] at h
    · rw [hp] at h
      by_cases hlen : items.length = 0
      · simp [hlen] at h
      · simp only [hlen, if_false, if_neg hlen] at h
        have hconv := congrArg List.length (Except.ok.inj h)
        rw [length_convertApifyLIFrom env items 0] at hconv
        simp at hconv
        exact hlen (by simp [hconv])

theorem adapters_empty_result_asymmetry_witness :
    (parseApifyLIItems (ApifyLIBody.dataset []) = some [] ∧
      (List.length ([] : List ApifyLIItem)) = 0) ∧
    (∃ e, FetchApifyLinkedInJobs fixtureAdapterEnv (ApifyLIBody.dataset []) =
      Except.error e) :=
  ⟨⟨rfl, rfl⟩,
    adapters_empty_result_asymmetry.2.2.1 fixtureAdapterEnv
      (ApifyLIBody.dataset []) [] rfl rfl⟩

/-- Test fixture: a loosely-typed LinkedIn item with no recognised keys. -/
def fixtureLILooseItem : LILooseItem :=
  { title := none, id := none, organization := none,
    organizationURL := none, url := none, description := none,
    datePosted := none, locationsDerived := none }

/-- C8 counterexample: the envelope shape `{"data": []}` parses, yet
`FetchLinkedInJobs` returns an error, so "fails only if none of the
shapes parses" is false. -/
theorem FetchLinkedInJobs_parsed_empty_counterexample :
    parseLIEnvelope (LIBody.envelope (some [])) = some (some []) ∧
    FetchLinkedInJobs fixtureAdapterEnv (LIBody.envelope (some [])) =
      Except.error ("no data returned from LinkedIn API".data) :=
  ⟨rfl, rfl⟩

/-- C8 (amended): `FetchLinkedInJobs` attempts the bare array, the
`{"data": [...]}` envelope, then a JSON string wrapping the envelope, in
that order, and returns the records built from the first shape that
parses to at least one item; every other body — unparsable, or parsing
to a shape with zero items (empty bare array, envelope with missing or
empty `data`, string-wrapped envelope with missing or empty `data`) —
produces an error. -/
theorem FetchLinkedInJobs_shape_sequence (env : AdapterEnv) :
    (∀ items, 0 < items.length →
       FetchLinkedInJobs env (LIBody.arrayOf items) =
         Except.ok (convertLILooseFrom env 0 items)) ∧
    (∀ data, 0 < data.length →
       FetchLinkedInJobs env (LIBody.envelope (some data)) =
         Except.ok (convertLIFrom env 0 data)) ∧
    (∀ data, 0 < data.length →
       FetchLinkedInJobs env (LIBody.quoted (LIBody.envelope (some data))) =
         Except.ok (convertLIFrom env 0 data)) ∧
    FetchLinkedInJobs env (LIBody.arrayOf []) =
      Except.error ("json unmarshal error".data) ∧
    FetchLinkedInJobs env (LIBody.envelope none) =
      Except.error ("no data returned from LinkedIn API".data) ∧
    FetchLinkedInJobs env (LIBody.envelope (some [])) =
      Except.error ("no data returned from LinkedIn API".data) ∧
    FetchLinkedInJobs env (LIBody.quoted (LIBody.envelope none)) =
      Except.error ("no data returned from LinkedIn API".data) ∧
    FetchLinkedInJobs env (LIBody.quoted (LIBody.envelope (some []))) =
      Except.error ("no data returned from LinkedIn API".data) ∧
    (∀ inner, parseLIEnvelope inner = none →
       FetchLinkedInJobs env (LIBody.quoted inner) =
         Except.error ("failed to parse linkedin response from raw JSON string".data)) ∧
    FetchLinkedInJobs env LIBody.malformed =
      Except.error ("json unmarshal error".data) := by
  refine ⟨?_, ?_, ?_, rfl, rfl, rfl, rfl, rfl, ?_, rfl⟩
  · intro items h
    simp [FetchLinkedInJobs, parseLILooseArray, h]
  · intro data h
    have hz : ¬(data.length = 0) := by omega
    simp [FetchLinkedInJobs, parseLILooseArray, liEnvelopeAttempt,
      parseLIEnvelope, liCheckData, hz]
  · intro data h
    have hz : ¬(data.length = 0) := by omega
    simp [FetchLinkedInJobs, parseLILooseArray, liEnvelopeAttempt,
      parseLIEnvelope, liBodyIsJSONString, parseLIString, liCheckData, hz]
  · intro inner hinner
    have h1 : FetchLinkedInJobs env (LIBody.quoted inner) =
        match parseLIEnvelope inner with
        | some d => liCheckData env d
        | none =>
          Except.error ("failed to parse linkedin response from raw JSON string".data) :=
      rfl
    rw [h1, hinner]

theorem FetchLinkedInJobs_shape_sequence_witness :
    0 < [fixtureLILooseItem].length ∧
    FetchLinkedInJobs fixtureAdapterEnv (LIBody.arrayOf [fixtureLILooseItem]) =
      Except.ok (convertLILooseFrom fixtureAdapterEnv 0 [fixtureLILooseItem]) :=
  ⟨by decide,
    (FetchLinkedInJobs_shape_sequence fixtureAdapterEnv).1 [fixtureLILooseItem]
      (by decide)⟩

/-- The per-record contract of an adapter: non-empty `id` and `source`,
a non-zero fetch time, and an expiry exactly one calendar month after
the fetch time. -/
def adapterRecordOk (jb : Job) : Prop :=
  jb.id ≠ [] ∧ jb.source ≠ [] ∧ jb.dateGotten ≠ GoTime.zero ∧
  jb.expDate = jb.dateGotten.addOneMonth

lemma convertJSearchFrom_ok (env : AdapterEnv) (hids : ∀ k, env.uuidA k ≠ [])
    (hnow : env.now ≠ GoTime.zero) :
    ∀ (items : List JSearchItem) (i : Nat),
    ∀ jb ∈ convertJSearchFrom env i items, adapterRecordOk jb := by
  intro items
  induction items with
  | nil => intro i jb hjb; simp [convertJSearchFrom] at hjb
  | cons item rest ih =>
    intro i jb hjb
    simp only [convertJSearchFrom, List.mem_cons] at hjb
    rcases hjb with h | h
    · subst h
      exact ⟨hids i, (by decide : ("jsearch".data : Str) ≠ []), hnow, rfl⟩
    · exact ih (i + 1) jb h

lemma convertLILooseFrom_ok (env : AdapterEnv) (hids : ∀ k, env.uuidA k ≠ [])
    (hnow : env.now ≠ GoTime.zero) :
    ∀ (items : List LILooseItem) (i : Nat),
    ∀ jb ∈ convertLILooseFrom env i items, adapterRecordOk jb := by
  intro items
  induction items with
  | nil => intro i jb hjb; simp [convertLILooseFrom] at hjb
  | cons item rest ih =>
    intro i jb hjb
    simp only [convertLILooseFrom, List.mem_cons] at hjb
    rcases hjb with h | h
    · subst h
      exact ⟨hids i, (by decide : ("linkedin".data : Str) ≠ []), hnow, rfl⟩
    · exact ih (i + 1) jb h

lemma convertLIFrom_ok (env : AdapterEnv) (hids : ∀ k, env.uuidA k ≠ [])
    (hnow : env.now ≠ GoTime.zero) :
    ∀ (items : List LIItem) (i : Nat),
    ∀ jb ∈ convertLIFrom env i items, adapterRecordOk jb := by
  intro items
  induction items with
  | nil => intro i jb hjb; simp [convertLIFrom] at hjb
  | cons item rest ih =>
    intro i jb hjb
    simp only [convertLIFrom, List.mem_cons] at hjb
    rcases hjb with h | h
    · subst h
      exact ⟨hids i, (by decide : ("linkedin".data : Str) ≠ []), hnow, rfl⟩
    · exact ih (i + 1) jb h

lemma convertIndeedFrom_ok (env : AdapterEnv) (hids : ∀ k, env.uuidA k ≠ [])
    (hnow : env.now ≠ GoTime.zero) :
    ∀ (items : List IndeedItem) (i : Nat),
    ∀ jb ∈ convertIndeedFrom env i items, adapterRecordOk jb := by
  intro items
  induction items with
  | nil => intro i jb hjb; simp [convertIndeedFrom] at hjb
  | cons item rest ih =>
    intro i jb hjb
    simp only [convertIndeedFrom, List.mem_cons] at hjb
    rcases hjb with h | h
    · subst h
      exact ⟨hids i, (by decide : ("apify indeed".data : Str) ≠ []), hnow, rfl⟩
    · exact ih (i + 1) jb h

lemma convertApifyLIFrom_ok (env : AdapterEnv) (hids : ∀ k, env.uuidA k ≠ [])
    (hnow : env.now ≠ GoTime.zero) :
    ∀ (items : List ApifyLIItem) (i : Nat),
    ∀ jb ∈ convertApifyLIFrom env i items, adapterRecordOk jb := by
  intro items
  induction items with
  | nil => intro i jb hjb; simp [convertApifyLIFrom] at hjb
  | cons item rest ih =>
    intro i jb hjb
    simp only [convertApifyLIFrom, List.mem_cons] at hjb
    rcases hjb with h | h
    · subst h
      exact ⟨hids i, (by decide : ("apify linkedin".data : Str) ≠ []), hnow, rfl⟩
    · exact ih (i + 1) jb h

/-- C4: each adapter builds exactly one record per vendor item, and every
record carries a non-empty `id` (a fresh UUID), a non-empty `source`, a
non-zero `date_gotten`, and `exp_date` one calendar month after
`date_gotten`; the fetch operations return exactly these conversions for
the accepted shapes. -/
theorem adapter_jobs_shape_and_fields (env : AdapterEnv)
    (hids : ∀ k, env.uuidA k ≠ []) (hnow : env.now ≠ GoTime.zero) :
    (∀ items : List JSearchItem,
       (convertJSearchFrom env 0 items).length = items.length ∧
       ∀ jb ∈ convertJSearchFrom env 0 items, adapterRecordOk jb) ∧
    (∀ items : List LILooseItem,
       (convertLILooseFrom env 0 items).length = items.length ∧
       ∀ jb ∈ convertLILooseFrom env 0 items, adapterRecordOk jb) ∧
    (∀ items : List LIItem,
       (convertLIFrom env 0 items).length = items.length ∧
       ∀ jb ∈ convertLIFrom env 0 items, adapterRecordOk jb) ∧
    (∀ items : List IndeedItem,
       (convertIndeedFrom env 0 items).length = items.length ∧
       ∀ jb ∈ convertIndeedFrom env 0 items, adapterRecordOk jb) ∧
    (∀ items : List ApifyLIItem,
       (convertApifyLIFrom env 0 items).length = items.length ∧
       ∀ jb ∈ convertApifyLIFrom env 0 items, adapterRecordOk jb) ∧
    (∀ items, FetchJSearchJobs env (some items) =
       Except.ok (convertJSearchFrom env 0 items)) ∧
    (∀ items, FetchIndeedJobs env (IndeedBody.dataset items) =
       if items.length = 0 then Except.ok []
       else Except.ok (convertIndeedFrom env 0 items)) ∧
    (∀ items, 0 < items.length →
       FetchApifyLinkedInJobs env (ApifyLIBody.dataset items) =
         Except.ok (convertApifyLIFrom env 0 items)) := by
  refine ⟨?_, ?_, ?_, ?_, ?_, fun items => rfl, fun items => rfl, ?_⟩
  · exact fun items =>
      ⟨length_convertJSearchFrom env items 0, convertJSearchFrom_ok env hids hnow items 0⟩
  · exact fun items =>
      ⟨length_convertLILooseFrom env items 0, convertLILooseFrom_ok env hids hnow items 0⟩
  · exact fun items =>
      ⟨length_convertLIFrom env items 0, convertLIFrom_ok env hids hnow items 0⟩
  · exact fun items =>
      ⟨length_convertIndeedFrom env items 0, convertIndeedFrom_ok env hids hnow items 0⟩
  · exact fun items =>
      ⟨length_convertApifyLIFrom env items 0, convertApifyLIFrom_ok env hids hnow items 0⟩
  · intro items h
    have hz : ¬(items.length = 0) := by omega
    simp [FetchApifyLinkedInJobs, parseApifyLIItems, hz]

theorem adapter_jobs_shape_and_fields_witness :
    ((∀ k, fixtureAdapterEnv.uuidA k ≠ []) ∧
      fixtureAdapterEnv.now ≠ GoTime.zero) ∧
    ((convertJSearchFrom fixtureAdapterEnv 0 []).length = ([] : List JSearchItem).length ∧
      ∀ jb ∈ convertJSearchFrom fixtureAdapterEnv 0 [], adapterRecordOk jb) :=
  ⟨⟨fun _ => (by decide : ("uuid-a".data : Str) ≠ []), by decide⟩,
    (adapter_jobs_shape_and_fields fixtureAdapterEnv
      (fun _ => (by decide : ("uuid-a".data : Str) ≠ [])) (by decide)).1 []⟩

lemma strStartsWith_decomp : ∀ (pat s : Str), strStartsWith s pat = true →
    ∃ v, s = pat ++ v := by
  intro pat
  induction pat with
  | nil => intro s h; exact ⟨s, rfl⟩
  | cons p ps ih =>
    intro s h
    cases s with
    | nil => simp [strStartsWith] at h
    | cons c cs =>
      simp only [strStartsWith, Bool.and_eq_true, beq_iff_eq] at h
      obtain ⟨rfl, hrest⟩ := h
      obtain ⟨v, rfl⟩ := ih cs hrest
      exact ⟨v, rfl⟩

lemma strEndsWith_decomp (s pat : Str) (h : strEndsWith s pat = true) :
    ∃ u, s = u ++ pat := by
  obtain ⟨v, hv⟩ := strStartsWith_decomp pat.reverse s.reverse h
  refine ⟨v.reverse, ?_⟩
  have h2 := congrArg List.reverse hv
  simpa using h2

lemma strContains_decomp : ∀ (s pat : Str), strContains s pat = true →
    ∃ u v, s = u ++ pat ++ v := by
  intro s
  induction s with
  | nil =>
    intro pat h
    simp only [strContains, List.isEmpty_iff] at h
    exact ⟨[], [], by simp [h]⟩
  | cons c rest ih =>
    intro pat h
    simp only [strContains, Bool.or_eq_true] at h
    rcases h with h | h
    · obtain ⟨v, hv⟩ := strStartsWith_decomp pat _ h
      exact ⟨[], v, by simp [hv]⟩
    · obtain ⟨u, v, huv⟩ := ih pat h
      exact ⟨c :: u, v, by simp [huv]⟩

lemma leftGoScan_complete : ∀ (u : Str) (prevOk : Bool) (rest : Str),
    (u = [] → prevOk = true) →
    (∀ c, u.getLast? = some c → isWordBoundary c = true) →
    leftGoScan prevOk (u ++ 'g' :: 'o' :: rest) = true := by
  intro u
  induction u with
  | nil =>
    intro prevOk rest hp hl
    have hpt : prevOk = true := hp rfl
    subst hpt
    simp [leftGoScan, startsGo]
  | cons c u2 ih =>
    intro prevOk rest hp hl
    simp only [List.cons_append, leftGoScan, Bool.or_eq_true]
    refine Or.inr (ih (isWordBoundary c) rest ?_ ?_)
    · intro h2
      subst h2
      exact hl c (by simp)
    · intro d hd
      apply hl d
      cases u2 with
      | nil => simp at hd
      | cons e es => rw [List.getLast?_cons_cons]; exact hd

lemma hasLeftBoundedGo_of_split (u rest : Str) (c : Char)
    (hc : isWordBoundary c = true) (s : Str)
    (hs : s = u ++ c :: 'g' :: 'o' :: rest) :
    hasLeftBoundedGo s = true := by
  subst hs
  have h1 : u ++ c :: 'g' :: 'o' :: rest = (u ++ [c]) ++ 'g' :: 'o' :: rest := by
    simp
  rw [hasLeftBoundedGo, h1]
  refine leftGoScan_complete (u ++ [c]) true rest (fun _ => rfl) ?_
  intro d hd
  rw [List.getLast?_concat] at hd
  obtain rfl := Option.some.inj hd
  exact hc

lemma hasLeftBoundedGo_of_start (rest : Str) (s : Str)
    (hs : s = 'g' :: 'o' :: rest) : hasLeftBoundedGo s = true := by
  subst hs
  simp [hasLeftBoundedGo, leftGoScan, startsGo]

/-- A relevance pattern of the source's lists: a single boundary
character followed by the letters `go`. -/
def patOkLeft (p : Str) : Bool :=
  match p with
  | c :: rest => isWordBoundary c && startsGo rest
  | [] => false

lemma startsGo_decomp : ∀ s : Str, startsGo s = true → ∃ b, s = 'g' :: 'o' :: b := by
  intro s h
  unfold startsGo at h
  split at h
  · exact ⟨_, rfl⟩
  · simp at h

lemma patOkLeft_decomp (p : Str) (hp : patOkLeft p = true) :
    ∃ c b, p = c :: 'g' :: 'o' :: b ∧ isWordBoundary c = true := by
  unfold patOkLeft at hp
  split at hp
  · rw [Bool.and_eq_true] at hp
    obtain ⟨h1, h2⟩ := hp
    obtain ⟨b, rfl⟩ := startsGo_decomp _ h2
    exact ⟨_, b, rfl, h1⟩
  · simp at hp

lemma hasLeftBoundedGo_of_contains (s p : Str) (hp : patOkLeft p = true)
    (h : strContains s p = true) : hasLeftBoundedGo s = true := by
  obtain ⟨c, b, rfl, hc⟩ := patOkLeft_decomp p hp
  obtain ⟨u, v, huv⟩ := strContains_decomp s _ h
  refine hasLeftBoundedGo_of_split u (b ++ v) c hc s ?_
  rw [huv]
  simp

lemma goPats_patOkLeft :
    ∀ p ∈ goStartPats ++ goEndPats ++ goAlonePats, patOkLeft p = true := by
  decide

/-- C2 counterexample: the title `A Gopher` has no occurrence of `go`
bounded on both sides by whitespace, punctuation or a string edge, and no
`golang`, yet `IsGoRelatedJob` classifies it relevant (via the one-sided
`" go"` entry of the `goSuffixes` list matched by plain substring
containment). -/
theorem IsGoRelatedJob_bounded_claim_counterexample :
    hasBoundedGo (lowerStr (fixtureJob ("A Gopher".data) []).title) = false ∧
    hasBoundedGo (lowerStr (fixtureJob ("A Gopher".data) []).description) = false ∧
    strContains (lowerStr (fixtureJob ("A Gopher".data) []).title)
      ("golang".data) = false ∧
    strContains (lowerStr (fixtureJob ("A Gopher".data) []).description)
      ("golang".data) = false ∧
    IsGoRelatedJob (fixtureJob ("A Gopher".data) []) = true := by
  refine ⟨by decide, by decide, by decide, by decide, by decide⟩

/-- C2 (amended): a job whose lower-cased title and description contain
no occurrence of `go` bounded on the left by whitespace, punctuation or
the string start, and no `golang` substring, is classified not relevant;
in particular a job titled exactly `Java Developer` with no other
Go-related tokens is not relevant.  (Right-hand boundedness is not
required by the code: the `" go"` pattern is matched by substring.) -/
theorem IsGoRelatedJob_needs_left_bounded_go (job : Job)
    (ht : hasLeftBoundedGo (lowerStr job.title) = false)
    (hd : hasLeftBoundedGo (lowerStr job.description) = false)
    (gt : strContains (lowerStr job.title) ("golang".data) = false)
    (gd : strContains (lowerStr job.description) ("golang".data) = false) :
    IsGoRelatedJob job = false := by
  by_contra hcon
  have h : IsGoRelatedJob job = true := by
    cases hgo : IsGoRelatedJob job
    · exact absurd hgo hcon
    · rfl
  clear hcon
  simp only [IsGoRelatedJob, Bool.or_eq_true, List.any_eq_true] at h
  rcases h with ((((⟨p, hmem, hor⟩ | ⟨p, hmem, hor⟩) | ⟨p, hmem, hor⟩) | hps) | hgl)
  · have hp : patOkLeft p = true :=
      goPats_patOkLeft p (List.mem_append_left _ (List.mem_append_left _ hmem))
    rcases hor with hc | hc
    · simp [hasLeftBoundedGo_of_contains _ p hp hc] at ht
    · simp [hasLeftBoundedGo_of_contains _ p hp hc] at hd
  · have hp : patOkLeft p = true :=
      goPats_patOkLeft p (List.mem_append_left _ (List.mem_append_right _ hmem))
    rcases hor with hc | hc
    · simp [hasLeftBoundedGo_of_contains _ p hp hc] at ht
    · simp [hasLeftBoundedGo_of_contains _ p hp hc] at hd
  · have hp : patOkLeft p = true :=
      goPats_patOkLeft p (List.mem_append_right _ hmem)
    rcases hor with hc | hc
    · simp [hasLeftBoundedGo_of_contains _ p hp hc] at ht
    · simp [hasLeftBoundedGo_of_contains _ p hp hc] at hd
  · rcases hps with hpre | hsuf
    · obtain ⟨v, hv⟩ := strStartsWith_decomp _ _ hpre
      simp [hasLeftBoundedGo_of_start (' ' :: v) (lowerStr job.title)
        (by rw [hv]; rfl)] at ht
    · obtain ⟨u, hu⟩ := strEndsWith_decomp _ _ hsuf
      simp [hasLeftBoundedGo_of_split u [] ' ' (by decide) (lowerStr job.title)
        (by rw [hu])] at ht
  · rcases hgl with hc | hc
    · simp [hc] at gt
    · simp [hc] at gd

theorem IsGoRelatedJob_needs_left_bounded_go_witness :
    (hasLeftBoundedGo (lowerStr (fixtureJob ("Java Developer".data) []).title) = false ∧
     hasLeftBoundedGo (lowerStr (fixtureJob ("Java Developer".data) []).description) = false ∧
     strContains (lowerStr (fixtureJob ("Java Developer".data) []).title)
       ("golang".data) = false ∧
     strContains (lowerStr (fixtureJob ("Java Developer".data) []).description)
       ("golang".data) = false) ∧
    IsGoRelatedJob (fixtureJob ("Java Developer".data) []) = false :=
  ⟨⟨by decide, by decide, by decide, by decide⟩,
    IsGoRelatedJob_needs_left_bounded_go _ (by decide) (by decide)
      (by decide) (by decide)⟩

/-- Test fixture: a Go-related job at company `acme`. -/
def fixtureGoJob : Job :=
  { id := "id-1".data, jobId := "vendor-1".data, title := "Go Developer".data,
    company := "acme".data, companyURL := [], companyLogo := [], country := [],
    state := [], description := [], url := [], source := "jsearch".data,
    isRemote := false, employmentType := [], postedAt := ⟨2024, 3, 15, 0⟩,
    dateGotten := ⟨2024, 3, 20, 0⟩, expDate := ⟨2024, 4, 20, 0⟩,
    salary := [], location := [], jobType := [], rawData := [] }

/-- Test fixture: a fault-free save environment with no loaded config,
at the given wall-clock time. -/
def fixtureSaveEnv (t : GoTime) : SaveEnv :=
  { cfg := none, fetchLogo := fun _ => [], now := t,
    ctxDone := fun _ => false, dupCheckErr := fun _ => false,
    execErr := fun _ => false, beginErr := false, stmtErr := false,
    commitErr := false }

/-- Test fixture: like `fixtureSaveEnv` but every duplicate-check query
errors. -/
def fixtureDupErrEnv (t : GoTime) : SaveEnv :=
  { fixtureSaveEnv t with dupCheckErr := fun _ => true }

/-- Test fixture: like `fixtureSaveEnv` but the context is observed done
from the second record (batch position 1) on. -/
def fixtureCtxEnv (t : GoTime) : SaveEnv :=
  { fixtureSaveEnv t with ctxDone := fun k => decide (1 ≤ k) }

/-- C5: a duplicate-check query error is fail-open — the record is
treated as not a duplicate and proceeds through enrichment to the
upsert (even when it really is a duplicate), rather than being skipped
or failing the batch. -/
theorem dup_check_error_fail_open (env : SaveEnv) (committed : JobsTable)
    (i : Nat) (job : Job)
    (hctx : env.ctxDone i = false)
    (hbl : IsBlockedCompany job.company = false)
    (hgo : IsGoRelatedJob job = true)
    (herr : env.dupCheckErr i = true)
    (hdup : IsDuplicateJob committed job = true)
    (hexec : env.execErr i = false) :
    processRecord env committed i job = RecOutcome.upserted (enrichLogo env job) ∧
    (∀ (rest : List Job) (tx : JobsTable) (count : Nat),
      saveLoop env committed i (job :: rest) tx count =
        saveLoop env committed (i + 1) rest
          (upsertJob env.now tx (enrichLogo env job)) (count + 1)) := by
  have hpr : processRecord env committed i job =
      RecOutcome.upserted (enrichLogo env job) := by
    simp [processRecord, hctx, hbl, hgo, herr, hexec]
  exact ⟨hpr, fun rest tx count => by simp only [saveLoop, hpr]⟩

theorem dup_check_error_fail_open_witness :
    ((fixtureDupErrEnv ⟨2024, 3, 20, 0⟩).ctxDone 0 = false ∧
     IsBlockedCompany fixtureGoJob.company = false ∧
     IsGoRelatedJob fixtureGoJob = true ∧
     (fixtureDupErrEnv ⟨2024, 3, 20, 0⟩).dupCheckErr 0 = true ∧
     IsDuplicateJob [rowOfJob ⟨2024, 3, 1, 0⟩ fixtureGoJob] fixtureGoJob = true ∧
     (fixtureDupErrEnv ⟨2024, 3, 20, 0⟩).execErr 0 = false) ∧
    processRecord (fixtureDupErrEnv ⟨2024, 3, 20, 0⟩)
        [rowOfJob ⟨2024, 3, 1, 0⟩ fixtureGoJob] 0 fixtureGoJob =
      RecOutcome.upserted
        (enrichLogo (fixtureDupErrEnv ⟨2024, 3, 20, 0⟩) fixtureGoJob) :=
  ⟨⟨by decide, by decide, by decide, by decide, by decide, by decide⟩,
    (dup_check_error_fail_open (fixtureDupErrEnv ⟨2024, 3, 20, 0⟩)
      [rowOfJob ⟨2024, 3, 1, 0⟩ fixtureGoJob] 0 fixtureGoJob
      (by decide) (by decide) (by decide) (by decide) (by decide) (by decide)).1⟩

lemma processRecord_abortCtx (env : SaveEnv) (committed : JobsTable)
    (i : Nat) (job : Job)
    (h : processRecord env committed i job = RecOutcome.abortCtx) :
    env.ctxDone i = true := by
  by_cases hc : env.ctxDone i = true
  · exact hc
  · exfalso
    simp only [Bool.not_eq_true] at hc
    simp only [processRecord, hc, Bool.false_eq_true, if_false] at h
    split_ifs at h <;> simp_all

lemma saveLoop_count_le (env : SaveEnv) (committed : JobsTable) :
    ∀ (jobs : List Job) (i : Nat) (tx : JobsTable) (count : Nat),
    (saveLoop env committed i jobs tx count).1 ≤ count + jobs.length := by
  intro jobs
  induction jobs with
  | nil =>
    intro i tx count
    simp only [saveLoop]
    split <;> simp
  | cons job rest ih =>
    intro i tx count
    simp only [saveLoop]
    cases hpr : processRecord env committed i job with
    | abortCtx => simp [List.length_cons]
    | skipBlocked =>
      have h2 := ih (i + 1) tx count
      simp only [List.length_cons]
      omega
    | skipNonGo =>
      have h2 := ih (i + 1) tx count
      simp only [List.length_cons]
      omega
    | skipDup =>
      have h2 := ih (i + 1) tx count
      simp only [List.length_cons]
      omega
    | abortExec => simp [List.length_cons]
    | upserted enriched =>
      have h2 := ih (i + 1) (upsertJob env.now tx enriched) (count + 1)
      simp only [List.length_cons]
      omega

lemma saveLoop_err_rollback (env : SaveEnv) (committed : JobsTable) :
    ∀ (jobs : List Job) (i : Nat) (tx : JobsTable) (count : Nat) (e : SaveErr),
    (saveLoop env committed i jobs tx count).2.1 = some e →
    (saveLoop env committed i jobs tx count).2.2 = committed := by
  intro jobs
  induction jobs with
  | nil =>
    intro i tx count e
    simp only [saveLoop]
    split
    · intro _; rfl
    · intro h; simp at h
  | cons job rest ih =>
    intro i tx count e
    cases hpr : processRecord env committed i job with
    | abortCtx => intro _; simp [saveLoop, hpr]
    | abortExec => intro _; simp [saveLoop, hpr]
    | skipBlocked => simp only [saveLoop, hpr]; exact ih _ _ _ e
    | skipNonGo => simp only [saveLoop, hpr]; exact ih _ _ _ e
    | skipDup => simp only [saveLoop, hpr]; exact ih _ _ _ e
    | upserted enriched => simp only [saveLoop, hpr]; exact ih _ _ _ e

lemma saveLoop_ctx_exists (env : SaveEnv) (committed : JobsTable) :
    ∀ (jobs : List Job) (i : Nat) (tx : JobsTable) (count : Nat),
    (saveLoop env committed i jobs tx count).2.1 = some SaveErr.ctxCanceled →
    ∃ k, i ≤ k ∧ k < i + jobs.length ∧ env.ctxDone k = true := by
  intro jobs
  induction jobs with
  | nil =>
    intro i tx count
    simp only [saveLoop]
    split
    · intro h; simp at h
    · intro h; simp at h
  | cons job rest ih =>
    intro i tx count h
    rw [saveLoop] at h
    cases hpr : processRecord env committed i job <;> rw [hpr] at h
    case abortCtx =>
      exact ⟨i, Nat.le_refl i, by simp only [List.length_cons]; omega,
        processRecord_abortCtx env committed i job hpr⟩
    case skipBlocked =>
      obtain ⟨k, h1, h2, h3⟩ := ih (i + 1) tx count h
      exact ⟨k, by omega, by simp only [List.length_cons]; omega, h3⟩
    case skipNonGo =>
      obtain ⟨k, h1, h2, h3⟩ := ih (i + 1) tx count h
      exact ⟨k, by omega, by simp only [List.length_cons]; omega, h3⟩
    case skipDup =>
      obtain ⟨k, h1, h2, h3⟩ := ih (i + 1) tx count h
      exact ⟨k, by omega, by simp only [List.length_cons]; omega, h3⟩
    case abortExec => simp at h
    case upserted enriched =>
      obtain ⟨k, h1, h2, h3⟩ := ih (i + 1) _ (count + 1) h
      exact ⟨k, by omega, by simp only [List.length_cons]; omega, h3⟩

/-- C1: whenever `SaveJobsToDB` returns an error — in particular a
context cancellation observed at the start of a record's iteration, or a
database error from the upsert statement — the whole transaction is
rolled back: the committed table is unchanged, so no partial batch is
ever committed; the returned count is at most the batch size, and a
cancellation error really stems from the context being done at some
record within the batch. -/
theorem SaveJobsToDB_abort_rolls_back (env : SaveEnv) (committed : JobsTable)
    (jobs : List Job) :
    (∀ e, (SaveJobsToDB env committed jobs).2.1 = some e →
       (SaveJobsToDB env committed jobs).2.2 = committed) ∧
    ((SaveJobsToDB env committed jobs).2.1 = some SaveErr.ctxCanceled ∨
     (SaveJobsToDB env committed jobs).2.1 = some SaveErr.execFailed →
       (SaveJobsToDB env committed jobs).1 ≤ jobs.length) ∧
    ((SaveJobsToDB env committed jobs).2.1 = some SaveErr.ctxCanceled →
       ∃ k, k < jobs.length ∧ env.ctxDone k = true) := by
  by_cases hb : env.beginErr = true
  · refine ⟨fun e _ => by simp [SaveJobsToDB, hb], ?_, ?_⟩
    · intro _; simp [SaveJobsToDB, hb]
    · intro h; simp [SaveJobsToDB, hb] at h
  · by_cases hs : env.stmtErr = true
    · refine ⟨fun e _ => by simp [SaveJobsToDB, hb, hs], ?_, ?_⟩
      · intro _; simp [SaveJobsToDB, hb, hs]
      · intro h; simp [SaveJobsToDB, hb, hs] at h
    · simp only [Bool.not_eq_true] at hb hs
      have hmain : SaveJobsToDB env committed jobs =
          saveLoop env committed 0 jobs committed 0 := by
        simp [SaveJobsToDB, hb, hs]
      refine ⟨?_, ?_, ?_⟩
      · intro e h
        rw [hmain] at h ⊢
        exact saveLoop_err_rollback env committed jobs 0 committed 0 e h
      · intro _
        rw [hmain]
        have h2 := saveLoop_count_le env committed jobs 0 committed 0
        omega
      · intro h
        rw [hmain] at h
        obtain ⟨k, h1, h2, h3⟩ := saveLoop_ctx_exists env committed jobs 0 committed 0 h
        exact ⟨k, by omega, h3⟩

theorem SaveJobsToDB_abort_rolls_back_witness :
    (SaveJobsToDB (fixtureCtxEnv ⟨2024, 3, 20, 0⟩) [] [fixtureGoJob, fixtureGoJob]).2.1 =
      some SaveErr.ctxCanceled ∧
    (SaveJobsToDB (fixtureCtxEnv ⟨2024, 3, 20, 0⟩) [] [fixtureGoJob, fixtureGoJob]).2.2 = [] ∧
    (SaveJobsToDB (fixtureCtxEnv ⟨2024, 3, 20, 0⟩) [] [fixtureGoJob, fixtureGoJob]).1 ≤ 2 :=
  ⟨by decide,
    (SaveJobsToDB_abort_rolls_back (fixtureCtxEnv ⟨2024, 3, 20, 0⟩) []
      [fixtureGoJob, fixtureGoJob]).1 SaveErr.ctxCanceled (by decide),
    (SaveJobsToDB_abort_rolls_back (fixtureCtxEnv ⟨2024, 3, 20, 0⟩) []
      [fixtureGoJob, fixtureGoJob]).2.1 (Or.inl (by decide))⟩

lemma enrichLogo_preserves (env : SaveEnv) (job : Job) :
    (enrichLogo env job).id = job.id ∧
    (enrichLogo env job).title = job.title ∧
    (enrichLogo env job).company = job.company ∧
    (enrichLogo env job).postedAt = job.postedAt := by
  unfold enrichLogo
  cases env.cfg with
  | none => exact ⟨rfl, rfl, rfl, rfl⟩
  | some cfg =>
    by_cases hcond : cfg.mode ≠ "dev".data ∧ cfg.brandFetchAPIKey ≠ [] ∧
        job.companyLogo = [] ∧ job.companyURL ≠ [] <;>
      simp [hcond]

lemma upsertJob_fresh (now : GoTime) : ∀ (tx : JobsTable) (job : Job),
    (∀ r ∈ tx, r.id ≠ job.id) →
    upsertJob now tx job = tx ++ [rowOfJob now job] := by
  intro tx
  induction tx with
  | nil => intro job h; rfl
  | cons r rest ih =>
    intro job h
    have hr : r.id ≠ job.id := h r (by simp)
    simp only [upsertJob, if_neg hr]
    rw [ih job (fun r2 hr2 => h r2 (by simp [hr2]))]
    simp

/-- A `SaveJobsToDB` call during which no context cancellation and no
database fault occurs. -/
def faultFree (env : SaveEnv) : Prop :=
  (∀ k, env.ctxDone k = false) ∧ (∀ k, env.dupCheckErr k = false) ∧
  (∀ k, env.execErr k = false) ∧ env.beginErr = false ∧
  env.stmtErr = false ∧ env.commitErr = false

lemma saveLoop_all_fresh (env : SaveEnv) (committed : JobsTable)
    (hff : faultFree env) :
    ∀ (jobs : List Job) (i : Nat) (tx : JobsTable) (count : Nat),
    (∀ j ∈ jobs, IsBlockedCompany j.company = false ∧ IsGoRelatedJob j = true ∧
       IsDuplicateJob committed j = false) →
    (∀ j ∈ jobs, ∀ r ∈ tx, r.id ≠ j.id) →
    jobs.Pairwise (fun a b => a.id ≠ b.id) →
    saveLoop env committed i jobs tx count =
      (count + jobs.length, none,
       tx ++ jobs.map (fun j => rowOfJob env.now (enrichLogo env j))) := by
  obtain ⟨hctx, hdupe, hexec, hbegin, hstmt, hcommit⟩ := hff
  intro jobs
  induction jobs with
  | nil =>
    intro i tx count hpass hfresh hpw
    simp [saveLoop, hcommit]
  | cons j rest ih =>
    intro i tx count hpass hfresh hpw
    obtain ⟨hb, hg, hd⟩ := hpass j (by simp)
    have hpr : processRecord env committed i j =
        RecOutcome.upserted (enrichLogo env j) := by
      simp [processRecord, hctx i, hb, hg, hdupe i, hd, hexec i]
    have hup : upsertJob env.now tx (enrichLogo env j) =
        tx ++ [rowOfJob env.now (enrichLogo env j)] := by
      apply upsertJob_fresh
      intro r hr
      rw [(enrichLogo_preserves env j).1]
      exact hfresh j (by simp) r hr
    obtain ⟨hhead, htail⟩ := List.pairwise_cons.mp hpw
    have hfresh2 : ∀ j2 ∈ rest, ∀ r ∈ tx ++ [rowOfJob env.now (enrichLogo env j)],
        r.id ≠ j2.id := by
      intro j2 h2 r hr
      rcases List.mem_append.mp hr with hin | hin
      · exact hfresh j2 (by simp [h2]) r hin
      · have : r = rowOfJob env.now (enrichLogo env j) := by simpa using hin
        subst this
        show (rowOfJob env.now (enrichLogo env j)).id ≠ j2.id
        have hid : (rowOfJob env.now (enrichLogo env j)).id = j.id :=
          (enrichLogo_preserves env j).1
        rw [hid]
        exact hhead j2 h2
    have hpass2 : ∀ j2 ∈ rest, IsBlockedCompany j2.company = false ∧
        IsGoRelatedJob j2 = true ∧ IsDuplicateJob committed j2 = false :=
      fun j2 h2 => hpass j2 (by simp [h2])
    simp only [saveLoop, hpr]
    rw [hup, ih (i + 1) _ (count + 1) hpass2 hfresh2 htail]
    simp only [List.length_cons, List.map_cons]
    rw [(by omega : count + 1 + rest.length = count + (rest.length + 1))]
    simp [List.append_assoc]

lemma saveLoop_all_dup (env : SaveEnv) (committed : JobsTable)
    (hff : faultFree env) :
    ∀ (jobs : List Job) (i : Nat) (tx : JobsTable) (count : Nat),
    (∀ j ∈ jobs, IsBlockedCompany j.company = false ∧ IsGoRelatedJob j = true ∧
       IsDuplicateJob committed j = true) →
    saveLoop env committed i jobs tx count = (count, none, tx) := by
  obtain ⟨hctx, hdupe, hexec, hbegin, hstmt, hcommit⟩ := hff
  intro jobs
  induction jobs with
  | nil =>
    intro i tx count hpass
    simp [saveLoop, hcommit]
  | cons j rest ih =>
    intro i tx count hpass
    obtain ⟨hb, hg, hd⟩ := hpass j (by simp)
    have hpr : processRecord env committed i j = RecOutcome.skipDup := by
      simp [processRecord, hctx i, hb, hg, hdupe i, hd]
    simp only [saveLoop, hpr]
    exact ih (i + 1) tx count (fun j2 h2 => hpass j2 (by simp [h2]))

/-- C3 (amended): starting from an empty committed table, a fault-free
`SaveJobsToDB` call inserts exactly one row per record of a batch whose
records pass the blocklist and relevance filters and carry pairwise
distinct generated IDs; a second fault-free call with the same batch
skips every record as a duplicate of its own stored row (the duplicate
check fires before the upsert), returns count 0, and leaves the table —
`updated_at` included — completely unchanged. -/
theorem SaveJobsToDB_repeat_batch_skipped_as_duplicates
    (env1 env2 : SaveEnv) (jobs : List Job)
    (hff1 : faultFree env1) (hff2 : faultFree env2)
    (hpass : ∀ j ∈ jobs, IsBlockedCompany j.company = false ∧
       IsGoRelatedJob j = true)
    (hids : jobs.Pairwise (fun a b => a.id ≠ b.id)) :
    SaveJobsToDB env1 [] jobs =
      (jobs.length, none,
       jobs.map (fun j => rowOfJob env1.now (enrichLogo env1 j))) ∧
    SaveJobsToDB env2
        (jobs.map (fun j => rowOfJob env1.now (enrichLogo env1 j))) jobs =
      (0, none,
       jobs.map (fun j => rowOfJob env1.now (enrichLogo env1 j))) := by
  obtain ⟨hc1, hd1, he1, hb1, hs1, hm1⟩ := hff1
  obtain ⟨hc2, hd2, he2, hb2, hs2, hm2⟩ := hff2
  constructor
  · simp only [SaveJobsToDB, hb1, hs1, Bool.false_eq_true, if_false]
    rw [saveLoop_all_fresh env1 [] ⟨hc1, hd1, he1, hb1, hs1, hm1⟩ jobs 0 [] 0
      (fun j hj => ⟨(hpass j hj).1, (hpass j hj).2, rfl⟩)
      (fun j _ r hr => absurd hr (List.not_mem_nil r)) hids]
    simp
  · have hdup : ∀ j ∈ jobs,
        IsDuplicateJob
          (jobs.map (fun j => rowOfJob env1.now (enrichLogo env1 j))) j = true := by
      intro j hj
      unfold IsDuplicateJob
      rw [List.any_eq_true]
      refine ⟨rowOfJob env1.now (enrichLogo env1 j),
        List.mem_map_of_mem _ hj, ?_⟩
      have hp := enrichLogo_preserves env1 j
      simp [rowOfJob, hp.2.1, hp.2.2.1, hp.2.2.2]
    simp only [SaveJobsToDB, hb2, hs2, Bool.false_eq_true, if_false]
    rw [saveLoop_all_dup env2 _ ⟨hc2, hd2, he2, hb2, hs2, hm2⟩ jobs 0 _ 0
      (fun j hj => ⟨(hpass j hj).1, (hpass j hj).2, hdup j hj⟩)]

/-- C3 counterexample: running the same one-record batch twice (at
wall-clock times one day apart) leaves the single row from the first
call untouched — the second call skips the record as a duplicate and
upserts nothing, so `updated_at` stays at the first call's time instead
of advancing. -/
theorem SaveJobsToDB_updated_at_counterexample :
    SaveJobsToDB (fixtureSaveEnv ⟨2024, 3, 16, 0⟩)
        (SaveJobsToDB (fixtureSaveEnv ⟨2024, 3, 15, 0⟩) [] [fixtureGoJob]).2.2
        [fixtureGoJob] =
      (0, none, [rowOfJob ⟨2024, 3, 15, 0⟩ fixtureGoJob]) ∧
    (rowOfJob ⟨2024, 3, 15, 0⟩ fixtureGoJob).updatedAt = ⟨2024, 3, 15, 0⟩ ∧
    (⟨2024, 3, 15, 0⟩ : GoTime) ≠ ⟨2024, 3, 16, 0⟩ ∧
    IsBlockedCompany fixtureGoJob.company = false ∧
    IsGoRelatedJob fixtureGoJob = true := by
  refine ⟨by decide, by decide, by decide, by decide, by decide⟩

theorem SaveJobsToDB_repeat_batch_skipped_as_duplicates_witness :
    (faultFree (fixtureSaveEnv ⟨2024, 3, 15, 0⟩) ∧
     faultFree (fixtureSaveEnv ⟨2024, 3, 16, 0⟩) ∧
     (∀ j ∈ [fixtureGoJob], IsBlockedCompany j.company = false ∧
        IsGoRelatedJob j = true) ∧
     [fixtureGoJob].Pairwise (fun a b => a.id ≠ b.id)) ∧
    SaveJobsToDB (fixtureSaveEnv ⟨2024, 3, 16, 0⟩)
        ([fixtureGoJob].map (fun j =>
          rowOfJob (fixtureSaveEnv ⟨2024, 3, 15, 0⟩).now
            (enrichLogo (fixtureSaveEnv ⟨2024, 3, 15, 0⟩) j))) [fixtureGoJob] =
      (0, none,
       [fixtureGoJob].map (fun j =>
         rowOfJob (fixtureSaveEnv ⟨2024, 3, 15, 0⟩).now
           (enrichLogo (fixtureSaveEnv ⟨2024, 3, 15, 0⟩) j))) :=
  ⟨⟨⟨fun _ => rfl, fun _ => rfl, fun _ => rfl, rfl, rfl, rfl⟩,
    ⟨fun _ => rfl, fun _ => rfl, fun _ => rfl, rfl, rfl, rfl⟩,
    by decide, by decide⟩,
    (SaveJobsToDB_repeat_batch_skipped_as_duplicates
      (fixtureSaveEnv ⟨2024, 3, 15, 0⟩) (fixtureSaveEnv ⟨2024, 3, 16, 0⟩)
      [fixtureGoJob]
      ⟨fun _ => rfl, fun _ => rfl, fun _ => rfl, rfl, rfl, rfl⟩
      ⟨fun _ => rfl, fun _ => rfl, fun _ => rfl, rfl, rfl, rfl⟩
      (by decide) (by decide)).2⟩
